import Mathlib

/-!
Shallow embedding of the openbr landmark-alignment plugins
(`src/openbr/plugins/landmarks.cpp`): the `ProcrustesTransform`
(train / project / store / load) and the `DelaunayTransform`
(triangle filtering and piecewise-affine warping).

Numeric code is embedded over an arbitrary `LinearOrderedField K`
(instantiated at `ℝ` where square roots matter, at `ℚ` for concrete
evaluations).  The square root performed by `cv::norm` is passed in as a
function parameter `sqrtFn` (instantiated with `Real.sqrt`), and the
Eigen `JacobiSVD` factorisation is passed in as an oracle `svdFun`
constrained by the `IsSVDOf` contract, since both are external library
calls.  Fallible steps (out-of-bounds `rects[0]` / `QList` indexing,
Eigen dimension mismatches) are modelled with `Option`.
-/

namespace Landmarks

/-- A `QRectF`: origin `(x, y)`, width `w`, height `hgt`. -/
structure RectF (K : Type) where
  x : K
  y : K
  w : K
  hgt : K
deriving DecidableEq

variable {K : Type} [LinearOrderedField K]

/-- `QRectF::topLeft()`. -/
def topLeft (r : RectF K) : K × K := (r.x, r.y)

/-- `QRectF::topRight()`. -/
def topRight (r : RectF K) : K × K := (r.x + r.w, r.y)

/-- `QRectF::bottomLeft()`. -/
def bottomLeft (r : RectF K) : K × K := (r.x, r.y + r.hgt)

/-- `QRectF::bottomRight()`. -/
def bottomRight (r : RectF K) : K × K := (r.x + r.w, r.y + r.hgt)

/-- The four rectangle corners appended to a point list, in the append
order used by both `train` and `project` (landmarks.cpp lines 40-43,
86-89, 150-153). -/
def rectCorners (r : RectF K) : List (K × K) :=
  [topLeft r, topRight r, bottomLeft r, bottomRight r]

/-- `points.append(rects[0].topLeft()); ...`: the augmented landmark
set.  Reading `rects[0]` is out of bounds when the rectangle list is
empty, so the result is an `Option` whose `none` branch is exactly the
empty-rectangle case. -/
def augmentPoints (points : List (K × K)) : List (RectF K) → Option (List (K × K))
  | [] => none
  | r :: _ => some (points ++ rectCorners r)

/-- `cv::mean` over a vector of 2-D points: the coordinate-wise mean
(landmarks.cpp lines 45, 91). -/
def meanPt (ps : List (K × K)) : K × K :=
  ((ps.map Prod.fst).sum / ps.length, (ps.map Prod.snd).sum / ps.length)

/-- `points[i] -= QPointF(mean[0], mean[1])` for every `i`
(landmarks.cpp lines 46, 92). -/
def centerPoints (ps : List (K × K)) : List (K × K) :=
  ps.map (fun p => (p.1 - (meanPt ps).1, p.2 - (meanPt ps).2))

/-- The sum of squares of all coordinates; `cv::norm` of the point
vector is `sqrt (sumSq ps)` (landmarks.cpp lines 48, 94). -/
def sumSq (ps : List (K × K)) : K :=
  (ps.map (fun p => p.1 ^ 2 + p.2 ^ 2)).sum

/-- `points[i] /= norm` for every `i` (landmarks.cpp line 49). -/
def normalizeBy (n : K) (ps : List (K × K)) : List (K × K) :=
  ps.map (fun p => (p.1 / n, p.2 / n))

/-- The per-sample normalization performed inside `train`
(landmarks.cpp lines 45-49): subtract the coordinate-wise mean, then
divide every coordinate by the Euclidean norm of the centered vector.
`sqrtFn` stands for the square root inside `cv::norm`. -/
def normalizedShape (sqrtFn : K → K) (ps : List (K × K)) : List (K × K) :=
  normalizeBy (sqrtFn (sumSq (centerPoints ps))) (centerPoints ps)

end Landmarks

namespace Landmarks

/-! ### The ProcrustesTransform state and its operations -/

variable {K : Type} [LinearOrderedField K]

/-- A training sample as seen by `train`: the template's landmark points
and rectangle list. -/
structure Sample (K : Type) where
  points : List (K × K)
  rects : List (RectF K)
deriving DecidableEq

/-- The collection loop of `ProcrustesTransform::train` (landmarks.cpp
lines 31-52): samples with empty point lists are skipped; for the rest,
`rects[0]` is read (out of bounds when there is no rectangle, hence
`none`), the four corners are appended and the augmented set is
normalized. -/
def collectShapes (sqrtFn : K → K) : List (Sample K) → Option (List (List (K × K)))
  | [] => some []
  | s :: rest =>
    if s.points.isEmpty then collectShapes sqrtFn rest
    else
      match s.rects with
      | [] => none
      | r :: _ =>
        (collectShapes sqrtFn rest).map
          (fun acc => normalizedShape sqrtFn (s.points ++ rectCorners r) :: acc)

/-- Sequence a list of options, failing if any entry is `none`. -/
def allSome {α : Type} : List (Option α) → Option (List α)
  | [] => some []
  | none :: _ => none
  | some a :: rest => (allSome rest).map (fun l => a :: l)

/-- The inner loop of the mean-shape computation: reading
`normalizedPoints[j][i]` for every shape `j` at a fixed point index `i`
(landmarks.cpp lines 62-65).  `QList::operator[]` out of bounds has no
defined result, hence `none` when some shape is shorter than `i + 1`. -/
def shapeColumn (i : Nat) (shapes : List (List (K × K))) : Option (List (K × K)) :=
  allSome (shapes.map (fun s => s.get? i))

/-- Averaging one column over all collected shapes: the division by
`normalizedPoints.size()` (landmarks.cpp lines 67-68). -/
def avgPoint (col : List (K × K)) (count : Nat) : K × K :=
  ((col.map Prod.fst).sum / count, (col.map Prod.snd).sum / count)

/-- The mean-shape computation of `ProcrustesTransform::train`
(landmarks.cpp lines 54-74): the row count is `normalizedPoints[0].size()`
(out of bounds when no shape was collected, hence `none`), and for each
index `i` below it every shape is read at `i` and averaged. -/
def meanShapeOf (shapes : List (List (K × K))) : Option (List (K × K)) :=
  match shapes with
  | [] => none
  | s0 :: _ =>
    allSome ((List.range s0.length).map
      (fun i => (shapeColumn i shapes).map (fun col => avgPoint col shapes.length)))

/-- `ProcrustesTransform::train`: collect the normalized augmented
shapes, then compute the mean shape (stored as the list of rows of the
`meanShape` matrix). -/
def ProcrustesTransform.train (sqrtFn : K → K) (data : List (Sample K)) :
    Option (List (K × K)) :=
  (collectShapes sqrtFn data).bind meanShapeOf

/-- Coordinate access for a 2-D point viewed as a matrix row. -/
def coord (p : K × K) : Fin 2 → K :=
  fun a => if a = 0 then p.1 else p.2

/-- `srcPoints.transpose() * meanShape` (landmarks.cpp line 102): the
2x2 cross-covariance matrix, whose `(a, b)` entry sums
`srcPoints(i, a) * meanShape(i, b)` over the common row index. -/
def crossCov (src ms : List (K × K)) : Matrix (Fin 2) (Fin 2) K :=
  Matrix.of fun a b => ((src.zip ms).map (fun pq => coord pq.1 a * coord pq.2 b)).sum

/-- `R = svd.matrixU() * svd.matrixV().transpose()` (landmarks.cpp
line 104). -/
def procrustesR (U V : Matrix (Fin 2) (Fin 2) K) : Matrix (Fin 2) (Fin 2) K :=
  U * V.transpose

/-- The canonical-frame map applied to one already-centered point:
`x / (norm / 150) + 50` per coordinate (landmarks.cpp lines 98-99). -/
def canonicalBy (n : K) (ps : List (K × K)) : List (K × K) :=
  ps.map (fun p => (p.1 / (n / 150) + 50, p.2 / (n / 150) + 50))

/-- The canonical-frame formula of spec section 4.2 applied to one raw
point given a centroid and a norm: `(raw - centroid) / (norm / 150) + 50`
per coordinate (the inline formula of landmarks.cpp lines 224-225). -/
def canonicalPt (m : K × K) (n : K) (p : K × K) : K × K :=
  ((p.1 - m.1) / (n / 150) + 50, (p.2 - m.2) / (n / 150) + 50)

/-- The canonical-frame point set computed inside
`ProcrustesTransform::project`: augment with the rectangle corners,
center, and apply the 150/50 canonical map using the norm of the
centered vector. -/
def canonicalShape (sqrtFn : K → K) (points : List (K × K))
    (rects : List (RectF K)) : Option (List (K × K)) :=
  (augmentPoints points rects).map
    (fun ps => canonicalBy (sqrtFn (sumSq (centerPoints ps))) (centerPoints ps))

/-- The seven scalar fields attached to the output template by
`ProcrustesTransform::project` (landmarks.cpp lines 106-112). -/
structure AlignOut (K : Type) where
  r00 : K
  r10 : K
  r11 : K
  r01 : K
  mean0 : K
  mean1 : K
  normv : K
deriving DecidableEq

/-- Reassembling the stored 2x2 matrix from the attached scalar fields,
as `DelaunayTransform::project` does (landmarks.cpp lines 202-206). -/
def outR (o : AlignOut K) : Matrix (Fin 2) (Fin 2) K :=
  Matrix.of fun a b =>
    if a = 0 then (if b = 0 then o.r00 else o.r01)
    else (if b = 0 then o.r10 else o.r11)

/-- `ProcrustesTransform::project` (landmarks.cpp lines 77-113).
`rects[0]` is read unconditionally (`none` on an empty rectangle list);
the Eigen product `srcPoints.transpose() * meanShape` requires the row
counts to agree (`none` otherwise, modelling the dimension assertion);
then `R = U * Vᵀ` from the SVD oracle and the seven scalars are
attached. -/
def ProcrustesTransform.project (sqrtFn : K → K)
    (svdFun : Matrix (Fin 2) (Fin 2) K → Matrix (Fin 2) (Fin 2) K × Matrix (Fin 2) (Fin 2) K)
    (meanShape : List (K × K)) (points : List (K × K)) (rects : List (RectF K)) :
    Option (AlignOut K) :=
  match rects with
  | [] => none
  | r :: _ =>
    let ps := points ++ rectCorners r
    let m := meanPt ps
    let c := centerPoints ps
    let nv := sqrtFn (sumSq c)
    if meanShape.length = ps.length then
      let src := canonicalBy nv c
      let uv := svdFun (crossCov src meanShape)
      let R := procrustesR uv.1 uv.2
      some ⟨R 0 0, R 1 0, R 1 1, R 0 1, m.1, m.2, nv⟩
    else none

end Landmarks

namespace Landmarks

/-! ### DelaunayTransform: triangle filter and piecewise-affine warp -/

variable {K : Type} [LinearOrderedField K]

/-- A triangle produced by `Subdiv2D::getTriangleList` after `cvRound`:
three integer vertices (landmarks.cpp lines 163-170). -/
structure TriI where
  p0 : Int × Int
  p1 : Int × Int
  p2 : Int × Int
deriving DecidableEq

/-- The per-vertex containment test of landmarks.cpp line 174: a vertex
spoils the triangle when `x > cols || y > rows || x <= 0 || y <= 0`. -/
def insideImage (cols rows : Int) (p : Int × Int) : Bool :=
  !(p.1 > cols || p.2 > rows || p.1 ≤ 0 || p.2 ≤ 0)

/-- The triangle post-filter of `DelaunayTransform::project`
(landmarks.cpp lines 163-187): a triangle is kept when all three
vertices pass `insideImage`. -/
def validTriangles (cols rows : Int) (tris : List TriI) : List TriI :=
  tris.filter (fun t =>
    insideImage cols rows t.p0 && insideImage cols rows t.p1 && insideImage cols rows t.p2)

/-- The spec's strict-containment predicate (spec sections 3 and 8):
`0 < x < width` and `0 < y < height`, all inequalities strict. -/
def strictlyInside (cols rows : Int) (p : Int × Int) : Prop :=
  0 < p.1 ∧ p.1 < cols ∧ 0 < p.2 ∧ p.2 < rows

/-- `DelaunayTransform::project` up to the mesh (landmarks.cpp lines
143-187): read `rects[0]` (no result when the rectangle list is empty),
append the four corners, triangulate through the OpenCV `Subdiv2D`
oracle `triangulate`, and keep the triangles passing the filter. -/
def DelaunayTransform.mesh (triangulate : List (K × K) → List TriI)
    (cols rows : Int) (points : List (K × K)) (rects : List (RectF K)) :
    Option (List TriI) :=
  (augmentPoints points rects).map (fun ps => validTriangles cols rows (triangulate ps))

/-- One destination vertex of the warper (landmarks.cpp lines 221-237):
the canonical-frame point of the triangle vertex rebuilt from the
stored centroid and norm, right-multiplied as a row vector by the
stored 2x2 matrix (`dstMat = srcPoints * R`). -/
def dstVertex (R : Matrix (Fin 2) (Fin 2) K) (m : K × K) (nv : K) (p : Int × Int) : K × K :=
  ((((p.1 : K) - m.1) / (nv / 150) + 50) * R 0 0 + (((p.2 : K) - m.2) / (nv / 150) + 50) * R 1 0,
   (((p.1 : K) - m.1) / (nv / 150) + 50) * R 0 1 + (((p.2 : K) - m.2) / (nv / 150) + 50) * R 1 1)

/-- The three destination vertices of one triangle. -/
def dstTriangle (R : Matrix (Fin 2) (Fin 2) K) (m : K × K) (nv : K) (t : TriI) :
    (K × K) × (K × K) × (K × K) :=
  (dstVertex R m nv t.p0, dstVertex R m nv t.p1, dstVertex R m nv t.p2)

/-- The warping loop of `DelaunayTransform::project` (landmarks.cpp
lines 218-257): the canvas starts as `Mat::zeros`; for each triangle,
`bufferOf` models the `warpAffine` resampling of the source image by the
triangle's 3-point affine map, `maskOf` models `fillConvexPoly` applied
to the destination triangle, and the per-pixel `bitwise_and` of the two
is added into the canvas. -/
def DelaunayTransform.warp (R : Matrix (Fin 2) (Fin 2) K) (m : K × K) (nv : K)
    (tris : List TriI)
    (bufferOf : TriI → ((K × K) × (K × K) × (K × K)) → Nat × Nat → Nat)
    (maskOf : ((K × K) × (K × K) × (K × K)) → Nat × Nat → Nat)
    (px : Nat × Nat) : Nat :=
  tris.foldl (fun acc t =>
    acc + (bufferOf t (dstTriangle R m nv t) px &&& maskOf (dstTriangle R m nv t) px)) 0

end Landmarks

namespace Landmarks

/-! ### Modelled from the spec: mean-shape persistence -/

variable {K : Type} [LinearOrderedField K]

def flattenPts : List (K × K) → List K
  | [] => []
  | p :: rest => p.1 :: p.2 :: flattenPts rest

/-- Modelled from the spec: `ProcrustesTransform::store` (landmarks.cpp
line 117) writes `meanShape` through the `QDataStream` operator for
Eigen matrices defined in `openbr/core/eigenutils.h`, which is not among
the given sources.  Per spec section 6 the matrix is serialized as a
single dense blob: row count, column count, then the coefficients. -/
def ProcrustesTransform.store (ms : List (K × K)) : Nat × Nat × List K :=
  (ms.length, 2, flattenPts ms)

/-- Inverse of `flattenPts`: reassemble consecutive coordinate pairs. -/
def pairUp : List K → List (K × K)
  | a :: b :: rest => (a, b) :: pairUp rest
  | _ => []

/-- Modelled from the spec: `ProcrustesTransform::load` (landmarks.cpp
line 122) reads the dense matrix blob back through the same
`eigenutils.h` operator, restoring the matrix bit-for-bit. -/
def ProcrustesTransform.load (blob : Nat × Nat × List K) : List (K × K) :=
  pairUp blob.2.2

end Landmarks

namespace Landmarks

/-! ### The JacobiSVD contract -/

variable {K : Type} [LinearOrderedField K]


/-- A square matrix with orthonormal columns. -/
def IsOrthogonal (M : Matrix (Fin 2) (Fin 2) K) : Prop :=
  M.transpose * M = 1

/-- The contract of `Eigen::JacobiSVD` with `ComputeThinU | ComputeThinV`
on a square 2x2 input: `U` and `V` are orthogonal, the singular values
are nonnegative on the diagonal of `S`, and `M = U * S * Vᵀ`. -/
def IsSVDOf (U S V M : Matrix (Fin 2) (Fin 2) K) : Prop :=
  IsOrthogonal U ∧ IsOrthogonal V ∧
  (∃ d : Fin 2 → K, S = Matrix.diagonal d ∧ ∀ i, 0 ≤ d i) ∧
  M = U * S * V.transpose

end Landmarks

namespace Landmarks

variable {K : Type} [LinearOrderedField K]

/-- A point list viewed as an N x 2 matrix (the Eigen `srcPoints` and
`meanShape` layout). -/
def shapeMatrix (ms : List (K × K)) : Matrix (Fin ms.length) (Fin 2) K :=
  Matrix.of fun i a => coord (ms.get i) a

end Landmarks

namespace Landmarks

/-! ### Helper lemmas about sums over centered and scaled point lists -/

variable {K : Type} [LinearOrderedField K]

lemma sum_map_sub_const (l : List K) (c : K) :
    (l.map (fun a => a - c)).sum = l.sum - l.length * c := by
  induction l with
  | nil => simp
  | cons a t ih => simp [ih]; ring

lemma sum_map_div_const (l : List K) (c : K) :
    (l.map (fun a => a / c)).sum = l.sum / c := by
  induction l with
  | nil => simp
  | cons a t ih => simp [ih, add_div]

lemma sumSq_nonneg (ps : List (K × K)) : 0 ≤ sumSq ps := by
  induction ps with
  | nil => simp [sumSq]
  | cons p t ih =>
    simp only [sumSq, List.map_cons, List.sum_cons] at ih ⊢
    have h1 : (0 : K) ≤ p.1 ^ 2 + p.2 ^ 2 := by positivity
    linarith

lemma sumSq_normalizeBy (n : K) (ps : List (K × K)) :
    sumSq (normalizeBy n ps) = sumSq ps / n ^ 2 := by
  induction ps with
  | nil => simp [sumSq, normalizeBy]
  | cons p t ih =>
    simp only [sumSq, normalizeBy, List.map_cons, List.sum_cons, List.map_map] at ih ⊢
    rw [ih]
    field_simp

lemma fst_sum_centerPoints (ps : List (K × K)) (hne : ps ≠ []) :
    ((centerPoints ps).map Prod.fst).sum = 0 := by
  have hlen : (ps.length : K) ≠ 0 := by
    exact_mod_cast Nat.cast_ne_zero.mpr (List.length_pos.mpr hne).ne'
  simp only [centerPoints, List.map_map]
  have hcomp : (Prod.fst ∘ fun p : K × K => (p.1 - (meanPt ps).1, p.2 - (meanPt ps).2)) =
      fun p : K × K => p.1 - (meanPt ps).1 := rfl
  rw [hcomp]
  have := sum_map_sub_const (K := K) (ps.map Prod.fst) (meanPt ps).1
  have hmap : (ps.map (fun p : K × K => p.1 - (meanPt ps).1)) =
      ((ps.map Prod.fst).map (fun a => a - (meanPt ps).1)) := by
    simp [List.map_map]
  rw [hmap, this]
  simp only [meanPt, List.length_map]
  field_simp

lemma snd_sum_centerPoints (ps : List (K × K)) (hne : ps ≠ []) :
    ((centerPoints ps).map Prod.snd).sum = 0 := by
  have hlen : (ps.length : K) ≠ 0 := by
    exact_mod_cast Nat.cast_ne_zero.mpr (List.length_pos.mpr hne).ne'
  simp only [centerPoints, List.map_map]
  have hcomp : (Prod.snd ∘ fun p : K × K => (p.1 - (meanPt ps).1, p.2 - (meanPt ps).2)) =
      fun p : K × K => p.2 - (meanPt ps).2 := rfl
  rw [hcomp]
  have := sum_map_sub_const (K := K) (ps.map Prod.snd) (meanPt ps).2
  have hmap : (ps.map (fun p : K × K => p.2 - (meanPt ps).2)) =
      ((ps.map Prod.snd).map (fun a => a - (meanPt ps).2)) := by
    simp [List.map_map]
  rw [hmap, this]
  simp only [meanPt, List.length_map]
  field_simp

end Landmarks

namespace Landmarks

/-! ### C3: normalization invariance of the training-time normalizer -/

/-- C3: For every point set whose centered Euclidean norm is nonzero,
the normalization step used in `ProcrustesTransform::train` (subtract
the coordinate-wise mean, divide all coordinates by the Euclidean norm
of the centered coordinate vector) yields a point set whose centroid is
the origin and whose full-vector Euclidean norm is 1. -/
theorem normalizedShape_centroid_zero_norm_one (ps : List (ℝ × ℝ))
    (hn : Real.sqrt (sumSq (centerPoints ps)) ≠ 0) :
    meanPt (normalizedShape Real.sqrt ps) = (0, 0) ∧
    Real.sqrt (sumSq (normalizedShape Real.sqrt ps)) = 1 := by
  have hps : ps ≠ [] := by
    rintro rfl
    simp [centerPoints, sumSq] at hn
  have hs0 : sumSq (centerPoints ps) ≠ 0 := by
    intro h
    rw [h] at hn
    simp at hn
  have hpos : 0 < sumSq (centerPoints ps) :=
    lt_of_le_of_ne (sumSq_nonneg _) (Ne.symm hs0)
  constructor
  · have h1 : ((normalizeBy (Real.sqrt (sumSq (centerPoints ps))) (centerPoints ps)).map
        Prod.fst).sum = 0 := by
      simp only [normalizeBy, List.map_map]
      have hc : (Prod.fst ∘ fun p : ℝ × ℝ =>
          (p.1 / Real.sqrt (sumSq (centerPoints ps)), p.2 / Real.sqrt (sumSq (centerPoints ps)))) =
          fun p : ℝ × ℝ => p.1 / Real.sqrt (sumSq (centerPoints ps)) := rfl
      rw [hc]
      have hmap : (centerPoints ps).map
          (fun p : ℝ × ℝ => p.1 / Real.sqrt (sumSq (centerPoints ps))) =
          ((centerPoints ps).map Prod.fst).map
            (fun a => a / Real.sqrt (sumSq (centerPoints ps))) := by
        simp [List.map_map]
      rw [hmap, sum_map_div_const, fst_sum_centerPoints ps hps, zero_div]
    have h2 : ((normalizeBy (Real.sqrt (sumSq (centerPoints ps))) (centerPoints ps)).map
        Prod.snd).sum = 0 := by
      simp only [normalizeBy, List.map_map]
      have hc : (Prod.snd ∘ fun p : ℝ × ℝ =>
          (p.1 / Real.sqrt (sumSq (centerPoints ps)), p.2 / Real.sqrt (sumSq (centerPoints ps)))) =
          fun p : ℝ × ℝ => p.2 / Real.sqrt (sumSq (centerPoints ps)) := rfl
      rw [hc]
      have hmap : (centerPoints ps).map
          (fun p : ℝ × ℝ => p.2 / Real.sqrt (sumSq (centerPoints ps))) =
          ((centerPoints ps).map Prod.snd).map
            (fun a => a / Real.sqrt (sumSq (centerPoints ps))) := by
        simp [List.map_map]
      rw [hmap, sum_map_div_const, snd_sum_centerPoints ps hps, zero_div]
    unfold normalizedShape
    unfold meanPt
    rw [h1, h2]
    simp
  · unfold normalizedShape
    rw [sumSq_normalizeBy, Real.sq_sqrt hpos.le, div_self hs0, Real.sqrt_one]

/-- Witness for C3 at the concrete point set `[(1, 7), (-1, -7)]`. -/
theorem normalizedShape_centroid_zero_norm_one_witness :
    Real.sqrt (sumSq (centerPoints [((1 : ℝ), 7), (-1, -7)])) ≠ 0 ∧
    (meanPt (normalizedShape Real.sqrt [((1 : ℝ), 7), (-1, -7)]) = (0, 0) ∧
     Real.sqrt (sumSq (normalizedShape Real.sqrt [((1 : ℝ), 7), (-1, -7)])) = 1) := by
  have hv : sumSq (centerPoints [((1 : ℝ), 7), (-1, -7)]) = 100 := by
    norm_num [sumSq, centerPoints, meanPt]
  have h : Real.sqrt (sumSq (centerPoints [((1 : ℝ), 7), (-1, -7)])) ≠ 0 := by
    rw [hv]
    rw [Real.sqrt_ne_zero']
    norm_num
  exact ⟨h, normalizedShape_centroid_zero_norm_one _ h⟩

end Landmarks

namespace Landmarks

variable {K : Type} [LinearOrderedField K]

omit [LinearOrderedField K] in
lemma pairUp_flattenPts (ms : List (K × K)) : pairUp (flattenPts ms) = ms := by
  induction ms with
  | nil => rfl
  | cons p rest ih => simp [flattenPts, pairUp, ih]


end Landmarks

namespace Landmarks

/-! ### C4: project fails when untrained or on a point-count mismatch -/

variable {K : Type} [LinearOrderedField K]

/-- C4: `ProcrustesTransform::project` has no result (the Eigen product
`srcPoints.transpose() * meanShape` is dimensionally undefined) whenever
it is invoked before `train` established a mean shape (the
default-constructed matrix has zero rows) or whenever the augmented
point count (landmarks + 4 corners) differs from the mean shape's row
count; nothing is truncated or padded to make the product fit. -/
theorem project_none_of_untrained_or_mismatch (sqrtFn : K → K)
    (svdFun : Matrix (Fin 2) (Fin 2) K → Matrix (Fin 2) (Fin 2) K × Matrix (Fin 2) (Fin 2) K)
    (meanShape points : List (K × K)) (rects : List (RectF K))
    (h : meanShape = [] ∨ meanShape.length ≠ points.length + 4) :
    ProcrustesTransform.project sqrtFn svdFun meanShape points rects = none := by
  cases rects with
  | nil => rfl
  | cons r rest =>
    have hlen : meanShape.length ≠ (points ++ rectCorners r).length := by
      rcases h with h | h
      · subst h
        simp [rectCorners]
      · simpa [rectCorners] using h
    simp only [ProcrustesTransform.project]
    rw [if_neg hlen]

/-- Witness for C4: with no trained mean shape, projecting a sample with
one rectangle has no result. -/
theorem project_none_of_untrained_or_mismatch_witness :
    (([] : List (ℚ × ℚ)) = [] ∨ ([] : List (ℚ × ℚ)).length ≠ ([] : List (ℚ × ℚ)).length + 4) ∧
    ProcrustesTransform.project (fun x => x) (fun _ => (1, 1)) ([] : List (ℚ × ℚ)) []
      [⟨0, 0, 1, 1⟩] = none :=
  ⟨Or.inl rfl,
   project_none_of_untrained_or_mismatch (fun x => x) (fun _ => (1, 1)) [] [] [⟨0, 0, 1, 1⟩]
     (Or.inl rfl)⟩

/-! ### C2: the canonical-frame formula inside project -/

/-- C2: in `ProcrustesTransform::project`, every augmented landmark
point is mapped into the canonical frame by exactly
`(raw - centroid) / (norm / 150) + 50` per coordinate, where the
centroid is the coordinate-wise mean of the augmented set and the norm
is the Euclidean norm of the centered full coordinate vector. -/
theorem project_canonical_formula (points : List (ℝ × ℝ)) (r : RectF ℝ) (i : Nat)
    (h : i < (points ++ rectCorners r).length) :
    (canonicalBy (Real.sqrt (sumSq (centerPoints (points ++ rectCorners r))))
        (centerPoints (points ++ rectCorners r))).get? i =
      some (canonicalPt (meanPt (points ++ rectCorners r))
        (Real.sqrt (sumSq (centerPoints (points ++ rectCorners r))))
        ((points ++ rectCorners r).get ⟨i, h⟩)) := by
  rw [canonicalBy, centerPoints, List.map_map, List.get?_map,
    List.get?_eq_get h]
  rfl

/-- Witness for C2 at the sample with landmark `(1, 2)` and a degenerate
rectangle at the origin, index 0. -/
theorem project_canonical_formula_witness :
    0 < (([((1 : ℝ), 2)]) ++ rectCorners ⟨0, 0, 0, 0⟩).length ∧
    (canonicalBy (Real.sqrt (sumSq (centerPoints ([((1 : ℝ), 2)] ++ rectCorners ⟨0, 0, 0, 0⟩))))
        (centerPoints ([((1 : ℝ), 2)] ++ rectCorners ⟨0, 0, 0, 0⟩))).get? 0 =
      some (canonicalPt (meanPt ([((1 : ℝ), 2)] ++ rectCorners ⟨0, 0, 0, 0⟩))
        (Real.sqrt (sumSq (centerPoints ([((1 : ℝ), 2)] ++ rectCorners ⟨0, 0, 0, 0⟩))))
        (([((1 : ℝ), 2)] ++ rectCorners ⟨0, 0, 0, 0⟩).get
          ⟨0, by simp [rectCorners]⟩)) :=
  ⟨by simp [rectCorners],
   project_canonical_formula [((1 : ℝ), 2)] ⟨0, 0, 0, 0⟩ 0 (by simp [rectCorners])⟩

end Landmarks

namespace Landmarks

/-! ### C5: the Delaunay containment filter is strict only at the lower border -/

variable {K : Type} [LinearOrderedField K]

/-- C5 counterexample: with a 10x10 image, the triangle with vertices
(10,5), (5,5), (5,1) is kept by the post-filter of
`DelaunayTransform::project` although its first vertex lies exactly on
the border `x = width`, which the claim says must cause the triangle to
be discarded. -/
theorem validTriangles_keeps_right_border_vertex :
    validTriangles 10 10 [⟨(10, 5), (5, 5), (5, 1)⟩] = [⟨(10, 5), (5, 5), (5, 1)⟩] ∧
    ¬ strictlyInside 10 10 (10, 5) := by
  constructor
  · decide
  · unfold strictlyInside
    omega

/-- C5 amended: a triangle is kept by the post-filter exactly when it
occurs in the raw triangle list and each of its three (rounded) vertices
satisfies `0 < x ≤ width` and `0 < y ≤ height`: the lower bounds are
strict but the upper bounds are inclusive, so a vertex exactly on the
right or bottom border does not cause the triangle to be discarded. -/
theorem validTriangles_mem_iff (cols rows : Int) (tris : List TriI) (t : TriI) :
    t ∈ validTriangles cols rows tris ↔
      t ∈ tris ∧
      ((0 < t.p0.1 ∧ t.p0.1 ≤ cols ∧ 0 < t.p0.2 ∧ t.p0.2 ≤ rows) ∧
       (0 < t.p1.1 ∧ t.p1.1 ≤ cols ∧ 0 < t.p1.2 ∧ t.p1.2 ≤ rows) ∧
       (0 < t.p2.1 ∧ t.p2.1 ≤ cols ∧ 0 < t.p2.2 ∧ t.p2.2 ≤ rows)) := by
  rw [validTriangles, List.mem_filter]
  constructor
  · rintro ⟨ht, hb⟩
    refine ⟨ht, ?_⟩
    simp only [insideImage, Bool.and_eq_true, Bool.not_eq_true', Bool.or_eq_false_iff,
      decide_eq_false_iff_not, not_lt, not_le] at hb
    omega
  · rintro ⟨ht, hb⟩
    refine ⟨ht, ?_⟩
    simp only [insideImage, Bool.and_eq_true, Bool.not_eq_true', Bool.or_eq_false_iff,
      decide_eq_false_iff_not, not_lt, not_le]
    omega

/-! ### C10: the first-rectangle access across all three operations -/

/-- C10: every operation that augments a landmark set with rectangle
corners reads `rects[0]` unconditionally, so its error branch is
reachable exactly when the rectangle list is empty: the augmentation
itself fails precisely on an empty rectangle list, and `project`, the
Delaunay mesh construction, and `train` (for a sample with non-empty
landmarks) all have no result in that case. -/
theorem rects_zero_access_out_of_bounds :
    (∀ (points : List (K × K)) (rects : List (RectF K)),
        augmentPoints points rects = none ↔ rects = []) ∧
    (∀ (sqrtFn : K → K)
        (svdFun : Matrix (Fin 2) (Fin 2) K → Matrix (Fin 2) (Fin 2) K × Matrix (Fin 2) (Fin 2) K)
        (meanShape points : List (K × K)),
        ProcrustesTransform.project sqrtFn svdFun meanShape points [] = none) ∧
    (∀ (triangulate : List (K × K) → List TriI) (cols rows : Int) (points : List (K × K)),
        DelaunayTransform.mesh triangulate cols rows points [] = none) ∧
    (∀ (sqrtFn : K → K) (data : List (Sample K)) (s : Sample K),
        s ∈ data → s.points.isEmpty = false → s.rects = [] →
        ProcrustesTransform.train sqrtFn data = none) := by
  refine ⟨?_, ?_, ?_, ?_⟩
  · intro points rects
    cases rects with
    | nil => simp [augmentPoints]
    | cons r rest => simp [augmentPoints]
  · intro sqrtFn svdFun meanShape points
    rfl
  · intro triangulate cols rows points
    rfl
  · intro sqrtFn data s hs hpts hrects
    have hnone : collectShapes sqrtFn data = none := by
      induction data with
      | nil => cases hs
      | cons a rest ih =>
        rcases List.mem_cons.mp hs with h | h
        · subst h
          rw [collectShapes]
          rw [if_neg (by rw [hpts]; exact Bool.false_ne_true)]
          rw [hrects]
        · rw [collectShapes]
          by_cases ha : a.points.isEmpty
          · rw [if_pos ha]
            exact ih h
          · rw [if_neg ha]
            cases har : a.rects with
            | nil => rfl
            | cons r rest2 =>
              rw [ih h]
              rfl
    rw [ProcrustesTransform.train, hnone]
    rfl

/-- Witness for C10: a sample with one landmark and no rectangle makes
training fail; the corresponding hypotheses are discharged concretely. -/
theorem rects_zero_access_out_of_bounds_witness :
    ((⟨[(1, 1)], []⟩ : Sample ℚ) ∈ [(⟨[(1, 1)], []⟩ : Sample ℚ)] ∧
      (⟨[(1, 1)], []⟩ : Sample ℚ).points.isEmpty = false ∧
      (⟨[(1, 1)], []⟩ : Sample ℚ).rects = []) ∧
    ProcrustesTransform.train (fun x => x) [(⟨[(1, 1)], []⟩ : Sample ℚ)] = none :=
  ⟨⟨List.mem_singleton.mpr rfl, rfl, rfl⟩,
   (rects_zero_access_out_of_bounds (K := ℚ)).2.2.2 (fun x => x) [⟨[(1, 1)], []⟩]
     ⟨[(1, 1)], []⟩ (List.mem_singleton.mpr rfl) rfl rfl⟩

end Landmarks

namespace Landmarks

/-! ### C8: the piecewise-affine warp accumulator -/

variable {K : Type} [LinearOrderedField K]

lemma warp_foldl_acc (f g : TriI → Nat) (l : List TriI) (acc : Nat)
    (h : ∀ t ∈ l, g t = 0) :
    l.foldl (fun a t => a + (f t &&& g t)) acc = acc := by
  induction l generalizing acc with
  | nil => rfl
  | cons t rest ih =>
    rw [List.foldl_cons, h t (List.mem_cons_self t rest), Nat.and_zero, Nat.add_zero]
    exact ih acc (fun u hu => h u (List.mem_cons_of_mem t hu))

/-- C8: the warper's destination vertices are exactly the canonical-frame
points rebuilt from the stored centroid and norm, right-multiplied by
the stored matrix `R`; and since the canvas starts as `Mat::zeros` and
each kept triangle only adds its mask-isolated content, every pixel
covered by no kept triangle's destination mask remains zero. -/
theorem warp_dst_formula_and_untouched_pixels_zero :
    (∀ (R : Matrix (Fin 2) (Fin 2) K) (m : K × K) (nv : K) (p : Int × Int),
        dstVertex R m nv p =
          ((canonicalPt m nv ((p.1 : K), (p.2 : K))).1 * R 0 0 +
             (canonicalPt m nv ((p.1 : K), (p.2 : K))).2 * R 1 0,
           (canonicalPt m nv ((p.1 : K), (p.2 : K))).1 * R 0 1 +
             (canonicalPt m nv ((p.1 : K), (p.2 : K))).2 * R 1 1)) ∧
    (∀ (R : Matrix (Fin 2) (Fin 2) K) (m : K × K) (nv : K) (cols rows : Int)
        (tris : List TriI)
        (bufferOf : TriI → ((K × K) × (K × K) × (K × K)) → Nat × Nat → Nat)
        (maskOf : ((K × K) × (K × K) × (K × K)) → Nat × Nat → Nat) (px : Nat × Nat),
        (∀ t ∈ validTriangles cols rows tris, maskOf (dstTriangle R m nv t) px = 0) →
        DelaunayTransform.warp R m nv (validTriangles cols rows tris) bufferOf maskOf px = 0) := by
  constructor
  · intro R m nv p
    rfl
  · intro R m nv cols rows tris bufferOf maskOf px h
    exact warp_foldl_acc (fun t => bufferOf t (dstTriangle R m nv t) px)
      (fun t => maskOf (dstTriangle R m nv t) px) _ 0 h

/-- Witness for C8: one degenerate triangle, an everywhere-zero mask and
an everywhere-saturated buffer leave the probed pixel at zero. -/
theorem warp_untouched_pixels_zero_witness :
    (∀ t ∈ validTriangles 4 4 [(⟨(1, 1), (2, 1), (1, 2)⟩ : TriI)],
        (fun (_ : ((ℚ × ℚ) × (ℚ × ℚ) × (ℚ × ℚ))) (_ : Nat × Nat) => (0 : Nat))
          (dstTriangle 1 (0, 0) 1 t) (0, 0) = 0) ∧
    DelaunayTransform.warp (1 : Matrix (Fin 2) (Fin 2) ℚ) (0, 0) 1
      (validTriangles 4 4 [(⟨(1, 1), (2, 1), (1, 2)⟩ : TriI)])
      (fun _ _ _ => 255) (fun _ _ => 0) (0, 0) = 0 :=
  ⟨fun t _ => rfl,
   (warp_dst_formula_and_untouched_pixels_zero (K := ℚ)).2 1 (0, 0) 1 4 4
     [⟨(1, 1), (2, 1), (1, 2)⟩] (fun _ _ _ => 255) (fun _ _ => 0) (0, 0) (fun t _ => rfl)⟩

/-! ### C9: persistence round trip preserves project output -/

/-- C9: serializing the trained mean shape with `store` and restoring it
with `load` yields an aligner whose `project` output (all seven attached
scalar fields) on any fixed sample equals the output produced before
serialization. -/
theorem project_after_store_load (sqrtFn : K → K)
    (svdFun : Matrix (Fin 2) (Fin 2) K → Matrix (Fin 2) (Fin 2) K × Matrix (Fin 2) (Fin 2) K)
    (meanShape points : List (K × K)) (rects : List (RectF K)) :
    ProcrustesTransform.project sqrtFn svdFun
      (ProcrustesTransform.load (ProcrustesTransform.store meanShape)) points rects =
    ProcrustesTransform.project sqrtFn svdFun meanShape points rects := by
  have h : ProcrustesTransform.load (ProcrustesTransform.store meanShape) = meanShape := by
    unfold ProcrustesTransform.load ProcrustesTransform.store
    exact pairUp_flattenPts meanShape
  rw [h]

end Landmarks

namespace Landmarks

/-! ### C6: train does not validate point counts -/

variable {K : Type} [LinearOrderedField K]

lemma allSome_map_eq_none {α β : Type} (f : β → Option α) (l : List β) (b : β)
    (hb : b ∈ l) (hf : f b = none) : allSome (l.map f) = none := by
  induction l with
  | nil => cases hb
  | cons a rest ih =>
    rcases List.mem_cons.mp hb with h | h
    · subst h
      rw [List.map_cons, hf]
      rfl
    · rw [List.map_cons]
      cases ha : f a with
      | none => rfl
      | some v =>
        rw [allSome, ih h]
        rfl

lemma shapeColumn_eq_none (i : Nat) (shapes : List (List (K × K))) (s : List (K × K))
    (hs : s ∈ shapes) (h : s.length ≤ i) : shapeColumn i shapes = none := by
  unfold shapeColumn
  exact allSome_map_eq_none (fun u => u.get? i) shapes s hs (List.get?_eq_none.mpr h)

/-- C6 amended: `train` performs no point-count validation at all.  The
mean-shape computation indexes every collected shape at every index of
the FIRST collected shape: when some later shape is shorter than the
first, the out-of-bounds read leaves the computation without a result,
but a later shape that is longer than the first is silently truncated to
the first shape's count and a mean shape IS produced (see the
counterexample). -/
theorem meanShapeOf_none_of_shorter_shape (s0 s : List (K × K))
    (rest : List (List (K × K))) (hs : s ∈ rest) (hlen : s.length < s0.length) :
    meanShapeOf (s0 :: rest) = none := by
  unfold meanShapeOf
  apply allSome_map_eq_none
    (fun i => (shapeColumn i (s0 :: rest)).map (fun col => avgPoint col (s0 :: rest).length))
    (List.range s0.length) s.length (List.mem_range.mpr hlen)
  rw [shapeColumn_eq_none s.length (s0 :: rest) s (List.mem_cons_of_mem s0 hs) (le_refl _)]
  rfl

/-- Witness for the amended C6: a second collected shape shorter than the
first leaves training without a mean shape. -/
theorem meanShapeOf_none_of_shorter_shape_witness :
    ([((1 : ℚ), 1)] ∈ [[((1 : ℚ), 1)]] ∧ [((1 : ℚ), 1)].length < [((0 : ℚ), 0), (0, 0)].length) ∧
    meanShapeOf [[((0 : ℚ), 0), (0, 0)], [((1 : ℚ), 1)]] = none :=
  ⟨⟨List.mem_singleton.mpr rfl, by decide⟩,
   meanShapeOf_none_of_shorter_shape [((0 : ℚ), 0), (0, 0)] [((1 : ℚ), 1)] [[((1 : ℚ), 1)]]
     (List.mem_singleton.mpr rfl) (by decide)⟩

/-- C6 counterexample: a training set whose two samples have augmented
point counts 5 and 6 is not rejected and does produce a mean shape:
`train` succeeds, silently ignoring the longer second shape's extra
point (its rows are the first shape's count, 5). -/
theorem train_produces_mean_shape_on_mismatched_counts :
    (normalizedShape Real.sqrt ([((1 : ℝ), 2)] ++ rectCorners ⟨0, 0, 0, 0⟩)).length ≠
      (normalizedShape Real.sqrt ([((1 : ℝ), 7), (-1, -7)] ++ rectCorners ⟨0, 0, 0, 0⟩)).length ∧
    ProcrustesTransform.train Real.sqrt
      [⟨[((1 : ℝ), 2)], [⟨0, 0, 0, 0⟩]⟩, ⟨[(1, 7), (-1, -7)], [⟨0, 0, 0, 0⟩]⟩] =
      some [(1 / 4, 3 / 4), (-1 / 10, -9 / 20), (-1 / 20, -1 / 10), (-1 / 20, -1 / 10),
        (-1 / 20, -1 / 10)] := by
  constructor
  · simp [normalizedShape, normalizeBy, centerPoints, rectCorners]
  · have h4 : Real.sqrt 4 = 2 := by
      rw [show (4 : ℝ) = 2 ^ 2 by norm_num]
      exact Real.sqrt_sq (by norm_num)
    have h100 : Real.sqrt 100 = 10 := by
      rw [show (100 : ℝ) = 10 ^ 2 by norm_num]
      exact Real.sqrt_sq (by norm_num)
    have hs1 : normalizedShape Real.sqrt ([((1 : ℝ), 2)] ++ rectCorners ⟨0, 0, 0, 0⟩) =
        [(2 / 5, 4 / 5), (-1 / 10, -1 / 5), (-1 / 10, -1 / 5), (-1 / 10, -1 / 5),
          (-1 / 10, -1 / 5)] := by
      norm_num [normalizedShape, rectCorners, topLeft, topRight, bottomLeft, bottomRight,
        centerPoints, meanPt, sumSq, normalizeBy, h4]
    have hs2 : normalizedShape Real.sqrt ([((1 : ℝ), 7), (-1, -7)] ++ rectCorners ⟨0, 0, 0, 0⟩) =
        [(1 / 10, 7 / 10), (-1 / 10, -7 / 10), (0, 0), (0, 0), (0, 0), (0, 0)] := by
      norm_num [normalizedShape, rectCorners, topLeft, topRight, bottomLeft, bottomRight,
        centerPoints, meanPt, sumSq, normalizeBy, h100]
    have hc : collectShapes Real.sqrt
        [⟨[((1 : ℝ), 2)], [⟨0, 0, 0, 0⟩]⟩, ⟨[(1, 7), (-1, -7)], [⟨0, 0, 0, 0⟩]⟩] =
        some [[(2 / 5, 4 / 5), (-1 / 10, -1 / 5), (-1 / 10, -1 / 5), (-1 / 10, -1 / 5),
            (-1 / 10, -1 / 5)],
          [(1 / 10, 7 / 10), (-1 / 10, -7 / 10), (0, 0), (0, 0), (0, 0), (0, 0)]] := by
      simp only [collectShapes, List.isEmpty_cons, Option.map_some]
      rw [hs1, hs2]
      rfl
    rw [ProcrustesTransform.train, hc]
    simp only [Option.bind_some, meanShapeOf]
    norm_num [shapeColumn, allSome, avgPoint, List.range_succ]

end Landmarks

namespace Landmarks

variable {K : Type} [LinearOrderedField K]

lemma outR_mk (R : Matrix (Fin 2) (Fin 2) K) (m0 m1 nv : K) :
    outR ⟨R 0 0, R 1 0, R 1 1, R 0 1, m0, m1, nv⟩ = R := by
  ext a b
  fin_cases a <;> fin_cases b <;> simp [outR]

lemma procrustesR_transpose_mul_self (U V : Matrix (Fin 2) (Fin 2) K)
    (hU : IsOrthogonal U) (hV : IsOrthogonal V) :
    (procrustesR U V).transpose * procrustesR U V = 1 := by
  unfold IsOrthogonal at hU hV
  unfold procrustesR
  rw [Matrix.transpose_mul, Matrix.transpose_transpose]
  rw [mul_assoc, ← mul_assoc U.transpose U V.transpose, hU, one_mul]
  exact Matrix.mul_eq_one_comm.mp hV

/-- C1: whenever the SVD oracle obeys the JacobiSVD contract (orthogonal
`U` and `V` factors), the 2x2 matrix `R` computed by
`ProcrustesTransform::project` and attached to the sample record is
orthogonal: `Rᵀ * R = 1`. -/
theorem project_R_orthogonal (sqrtFn : K → K)
    (svdFun : Matrix (Fin 2) (Fin 2) K → Matrix (Fin 2) (Fin 2) K × Matrix (Fin 2) (Fin 2) K)
    (meanShape points : List (K × K)) (rects : List (RectF K)) (out : AlignOut K)
    (hsvd : ∀ M, IsOrthogonal (svdFun M).1 ∧ IsOrthogonal (svdFun M).2)
    (h : ProcrustesTransform.project sqrtFn svdFun meanShape points rects = some out) :
    (outR out).transpose * outR out = 1 := by
  cases rects with
  | nil => cases h
  | cons r rest =>
    simp only [ProcrustesTransform.project] at h
    by_cases hlen : meanShape.length = (points ++ rectCorners r).length
    · rw [if_pos hlen] at h
      injection h with h
      rw [← h, outR_mk]
      exact procrustesR_transpose_mul_self _ _ (hsvd _).1 (hsvd _).2
    · rw [if_neg hlen] at h
      cases h

/-- Witness for C1: a constant identity-pair SVD oracle satisfies the
contract, and projecting a concrete sample against a 4-row mean shape
yields an orthogonal R. -/
theorem project_R_orthogonal_witness :
    (∀ M : Matrix (Fin 2) (Fin 2) ℚ,
        IsOrthogonal ((1 : Matrix (Fin 2) (Fin 2) ℚ), (1 : Matrix (Fin 2) (Fin 2) ℚ)).1 ∧
        IsOrthogonal ((1 : Matrix (Fin 2) (Fin 2) ℚ), (1 : Matrix (Fin 2) (Fin 2) ℚ)).2) ∧
    ProcrustesTransform.project (fun x => x)
      (fun _ => ((1 : Matrix (Fin 2) (Fin 2) ℚ), (1 : Matrix (Fin 2) (Fin 2) ℚ)))
      [((0 : ℚ), 0), (0, 0), (0, 0), (0, 0)] [] [⟨0, 0, 1, 1⟩] =
      some ⟨1, 0, 1, 0, 1 / 2, 1 / 2, 2⟩ ∧
    (outR (⟨1, 0, 1, 0, 1 / 2, 1 / 2, 2⟩ : AlignOut ℚ)).transpose *
      outR (⟨1, 0, 1, 0, 1 / 2, 1 / 2, 2⟩ : AlignOut ℚ) = 1 := by
  have hsvd : ∀ M : Matrix (Fin 2) (Fin 2) ℚ,
      IsOrthogonal ((1 : Matrix (Fin 2) (Fin 2) ℚ), (1 : Matrix (Fin 2) (Fin 2) ℚ)).1 ∧
      IsOrthogonal ((1 : Matrix (Fin 2) (Fin 2) ℚ), (1 : Matrix (Fin 2) (Fin 2) ℚ)).2 := by
    intro M
    constructor <;> simp [IsOrthogonal]
  have hproj : ProcrustesTransform.project (fun x => x)
      (fun _ => ((1 : Matrix (Fin 2) (Fin 2) ℚ), (1 : Matrix (Fin 2) (Fin 2) ℚ)))
      [((0 : ℚ), 0), (0, 0), (0, 0), (0, 0)] [] [⟨0, 0, 1, 1⟩] =
      some ⟨1, 0, 1, 0, 1 / 2, 1 / 2, 2⟩ := by
    simp only [ProcrustesTransform.project, rectCorners, topLeft, topRight, bottomLeft,
      bottomRight]
    norm_num [meanPt, centerPoints, sumSq, canonicalBy, procrustesR, Matrix.one_mul,
      Matrix.transpose_one, Matrix.one_apply]
  exact ⟨hsvd, hproj,
    project_R_orthogonal (fun x => x)
      (fun _ => ((1 : Matrix (Fin 2) (Fin 2) ℚ), (1 : Matrix (Fin 2) (Fin 2) ℚ)))
      [((0 : ℚ), 0), (0, 0), (0, 0), (0, 0)] [] [⟨0, 0, 1, 1⟩] _
      (fun M => hsvd M) hproj⟩


end Landmarks

namespace Landmarks

variable {K : Type} [LinearOrderedField K]

omit [LinearOrderedField K] in
lemma zip_self {α : Type} (l : List α) : l.zip l = l.map (fun a => (a, a)) := by
  induction l with
  | nil => rfl
  | cons a t ih => rw [List.zip_cons_cons, List.map_cons, ih]

lemma crossCov_self_eq (ms : List (K × K)) :
    crossCov ms ms = (shapeMatrix ms).transpose * shapeMatrix ms := by
  ext a b
  rw [Matrix.mul_apply]
  show ((ms.zip ms).map (fun pq => coord pq.1 a * coord pq.2 b)).sum = _
  rw [zip_self, List.map_map]
  have hcomp : ((fun pq : (K × K) × (K × K) => coord pq.1 a * coord pq.2 b) ∘
      fun p : K × K => (p, p)) = fun p : K × K => coord p a * coord p b := rfl
  rw [hcomp]
  conv_lhs => rw [← List.ofFn_get ms, List.map_ofFn, Fin.sum_ofFn]
  simp [shapeMatrix, Matrix.transpose_apply, Function.comp]

lemma svd_UVt_eq_one_of_gram {n : Nat} (B : Matrix (Fin n) (Fin 2) ℝ)
    (U S V : Matrix (Fin 2) (Fin 2) ℝ)
    (hU : IsOrthogonal U) (hV : IsOrthogonal V)
    (hS : ∃ d : Fin 2 → ℝ, S = Matrix.diagonal d ∧ ∀ i, 0 ≤ d i)
    (hM : B.transpose * B = U * S * V.transpose)
    (hdet : (B.transpose * B).det ≠ 0) :
    U * V.transpose = 1 := by
  obtain ⟨d, hSd, hd⟩ := hS
  unfold IsOrthogonal at hU hV
  have hBt : B.conjTranspose = B.transpose := Matrix.conjTranspose_eq_transpose_of_trivial B
  have hpsd : (B.transpose * B).PosSemidef := by
    have h0 := Matrix.posSemidef_conjTranspose_mul_self B
    rwa [hBt] at h0
  have hSpsd : S.PosSemidef := by
    rw [hSd]
    exact Matrix.PosSemidef.diagonal hd
  have hVpsd : (V * S * V.transpose).PosSemidef := by
    have h0 := hSpsd.mul_mul_conjTranspose_same V
    rwa [Matrix.conjTranspose_eq_transpose_of_trivial] at h0
  have hVVt : V * V.transpose = 1 := Matrix.mul_eq_one_comm.mp hV
  have hStS : S.transpose = S := by rw [hSd, Matrix.diagonal_transpose]
  have hMsymm : (B.transpose * B).transpose = B.transpose * B := by
    rw [Matrix.transpose_mul, Matrix.transpose_transpose]
  have hNN : (V * S * V.transpose) * (V * S * V.transpose) = V * S * S * V.transpose := by
    calc (V * S * V.transpose) * (V * S * V.transpose)
        = V * (S * ((V.transpose * V) * (S * V.transpose))) := by
          simp only [Matrix.mul_assoc]
      _ = V * (S * (S * V.transpose)) := by rw [hV, Matrix.one_mul]
      _ = V * S * S * V.transpose := by simp only [Matrix.mul_assoc]
  have hMM : (B.transpose * B) * (B.transpose * B) = V * S * S * V.transpose := by
    have hstep : (B.transpose * B) * (B.transpose * B) =
        (U * S * V.transpose).transpose * (U * S * V.transpose) := by
      rw [← hM, hMsymm]
    rw [hstep]
    calc (U * S * V.transpose).transpose * (U * S * V.transpose)
        = V * (S.transpose * ((U.transpose * U) * (S * V.transpose))) := by
          simp only [Matrix.transpose_mul, Matrix.transpose_transpose, Matrix.mul_assoc]
      _ = V * (S.transpose * (S * V.transpose)) := by rw [hU, Matrix.one_mul]
      _ = V * (S * (S * V.transpose)) := by rw [hStS]
      _ = V * S * S * V.transpose := by simp only [Matrix.mul_assoc]
  have hsq : (V * S * V.transpose) ^ 2 = (B.transpose * B) ^ 2 := by
    rw [pow_two, pow_two, hNN, hMM]
  have hNM : V * S * V.transpose = B.transpose * B := hVpsd.eq_of_sq_eq_sq hpsd hsq
  have hUS : U * S = V * S := by
    have h2 : U * S * V.transpose = V * S * V.transpose := by rw [← hM, hNM]
    have h3 := congrArg (fun X => X * V) h2
    simpa only [Matrix.mul_assoc, hV, Matrix.mul_one] using h3
  have hdetS : IsUnit S.det := by
    rw [isUnit_iff_ne_zero]
    intro h0
    apply hdet
    rw [hM, Matrix.det_mul, Matrix.det_mul, h0]
    ring
  have hUV : U = V := by
    calc U = U * S * S⁻¹ := (Matrix.mul_nonsing_inv_cancel_right _ _ hdetS).symm
      _ = V * S * S⁻¹ := by rw [hUS]
      _ = V := Matrix.mul_nonsing_inv_cancel_right _ _ hdetS
  rw [hUV, hVVt]


end Landmarks

namespace Landmarks

/-- C7 amended: for any aligner state `ms` (trained or loaded) and any
sample whose canonical-frame points are exactly the mean shape `ms`,
PROVIDED the cross-covariance matrix `msᵀ * ms` is invertible (the
canonical points are not collinear), `ProcrustesTransform::project`
yields `R = U * Vᵀ = 1` for every SVD satisfying the JacobiSVD
contract.  (Without the invertibility proviso the claim fails: see the
degenerate counterexample.) -/
theorem project_R_identity_on_mean_shape
    (svdFun : Matrix (Fin 2) (Fin 2) ℝ → Matrix (Fin 2) (Fin 2) ℝ × Matrix (Fin 2) (Fin 2) ℝ)
    (ms points : List (ℝ × ℝ)) (rects : List (RectF ℝ)) (S : Matrix (Fin 2) (Fin 2) ℝ)
    (out : AlignOut ℝ)
    (hc : canonicalShape Real.sqrt points rects = some ms)
    (hsvd : IsSVDOf (svdFun (crossCov ms ms)).1 S (svdFun (crossCov ms ms)).2 (crossCov ms ms))
    (hdet : (crossCov ms ms).det ≠ 0)
    (h : ProcrustesTransform.project Real.sqrt svdFun ms points rects = some out) :
    outR out = 1 := by
  cases rects with
  | nil => cases hc
  | cons r rest =>
    simp only [canonicalShape, augmentPoints, Option.map_some'] at hc
    injection hc with hc
    simp only [ProcrustesTransform.project] at h
    by_cases hlen : ms.length = (points ++ rectCorners r).length
    · rw [if_pos hlen] at h
      rw [hc] at h
      injection h with h
      rw [← h, outR_mk]
      obtain ⟨hU, hV, hS, hM⟩ := hsvd
      unfold procrustesR
      apply svd_UVt_eq_one_of_gram (shapeMatrix ms) _ S _ hU hV hS
      · rw [← crossCov_self_eq]
        exact hM
      · rw [← crossCov_self_eq]
        exact hdet
    · rw [if_neg hlen] at h
      cases h

end Landmarks

namespace Landmarks

lemma transpose_lit (a b c d : ℝ) : (!![a, b; c, d]).transpose = !![a, c; b, d] := by
  ext i j
  fin_cases i <;> fin_cases j <;> rfl

/-- Witness for the amended C7: a non-degenerate concrete sample (four
landmarks on the axes, degenerate rectangle at the origin) whose
canonical points are stored as the mean shape; the cross-covariance is
invertible, the exhibited factors form a valid SVD, and `project`
attaches the identity rotation. -/
theorem project_R_identity_on_mean_shape_witness :
    (canonicalShape Real.sqrt [((1 : ℝ), 0), (-1, 0), (0, 1), (0, -1)] [⟨0, 0, 0, 0⟩] =
      some [(125, 50), (-25, 50), (50, 125), (50, -25), (50, 50), (50, 50), (50, 50),
        (50, 50)]) ∧
    IsSVDOf !![Real.sqrt 2 / 2, -(Real.sqrt 2 / 2); Real.sqrt 2 / 2, Real.sqrt 2 / 2]
      !![(51250 : ℝ), 0; 0, 11250]
      !![Real.sqrt 2 / 2, -(Real.sqrt 2 / 2); Real.sqrt 2 / 2, Real.sqrt 2 / 2]
      (crossCov
        [((125 : ℝ), 50), (-25, 50), (50, 125), (50, -25), (50, 50), (50, 50), (50, 50), (50, 50)]
        [((125 : ℝ), 50), (-25, 50), (50, 125), (50, -25), (50, 50), (50, 50), (50, 50),
          (50, 50)]) ∧
    (crossCov
      [((125 : ℝ), 50), (-25, 50), (50, 125), (50, -25), (50, 50), (50, 50), (50, 50), (50, 50)]
      [((125 : ℝ), 50), (-25, 50), (50, 125), (50, -25), (50, 50), (50, 50), (50, 50),
        (50, 50)]).det ≠ 0 ∧
    ProcrustesTransform.project Real.sqrt
      (fun _ => (!![Real.sqrt 2 / 2, -(Real.sqrt 2 / 2); Real.sqrt 2 / 2, Real.sqrt 2 / 2],
        !![Real.sqrt 2 / 2, -(Real.sqrt 2 / 2); Real.sqrt 2 / 2, Real.sqrt 2 / 2]))
      [((125 : ℝ), 50), (-25, 50), (50, 125), (50, -25), (50, 50), (50, 50), (50, 50), (50, 50)]
      [((1 : ℝ), 0), (-1, 0), (0, 1), (0, -1)] [⟨0, 0, 0, 0⟩] =
      some ⟨1, 0, 1, 0, 0, 0, 2⟩ ∧
    outR (⟨1, 0, 1, 0, 0, 0, 2⟩ : AlignOut ℝ) = 1 := by
  have h2 : Real.sqrt 2 * Real.sqrt 2 = 2 := Real.mul_self_sqrt (by norm_num)
  have h4 : Real.sqrt 4 = 2 := by
    rw [show (4 : ℝ) = 2 ^ 2 by norm_num]
    exact Real.sqrt_sq (by norm_num)
  have hcan : canonicalShape Real.sqrt [((1 : ℝ), 0), (-1, 0), (0, 1), (0, -1)] [⟨0, 0, 0, 0⟩] =
      some [(125, 50), (-25, 50), (50, 125), (50, -25), (50, 50), (50, 50), (50, 50),
        (50, 50)] := by
    norm_num [canonicalShape, augmentPoints, rectCorners, topLeft, topRight, bottomLeft,
      bottomRight, centerPoints, meanPt, sumSq, canonicalBy, h4]
  have hM : crossCov
      [((125 : ℝ), 50), (-25, 50), (50, 125), (50, -25), (50, 50), (50, 50), (50, 50), (50, 50)]
      [((125 : ℝ), 50), (-25, 50), (50, 125), (50, -25), (50, 50), (50, 50), (50, 50),
        (50, 50)] = !![31250, 20000; 20000, 31250] := by
    ext a b
    fin_cases a <;> fin_cases b <;> norm_num [crossCov, coord, List.zip_cons_cons]
  have hOrth : IsOrthogonal
      !![Real.sqrt 2 / 2, -(Real.sqrt 2 / 2); Real.sqrt 2 / 2, Real.sqrt 2 / 2] := by
    unfold IsOrthogonal
    rw [transpose_lit, Matrix.mul_fin_two, Matrix.one_fin_two]
    ext i j
    fin_cases i <;> fin_cases j <;> simp <;> nlinarith [h2]
  have hsvd : IsSVDOf !![Real.sqrt 2 / 2, -(Real.sqrt 2 / 2); Real.sqrt 2 / 2, Real.sqrt 2 / 2]
      !![(51250 : ℝ), 0; 0, 11250]
      !![Real.sqrt 2 / 2, -(Real.sqrt 2 / 2); Real.sqrt 2 / 2, Real.sqrt 2 / 2]
      (crossCov
        [((125 : ℝ), 50), (-25, 50), (50, 125), (50, -25), (50, 50), (50, 50), (50, 50), (50, 50)]
        [((125 : ℝ), 50), (-25, 50), (50, 125), (50, -25), (50, 50), (50, 50), (50, 50),
          (50, 50)]) := by
    refine ⟨hOrth, hOrth, ⟨![51250, 11250], ?_, ?_⟩, ?_⟩
    · ext i j
      fin_cases i <;> fin_cases j <;> simp [Matrix.diagonal]
    · intro i
      fin_cases i <;> norm_num
    · rw [hM, transpose_lit, Matrix.mul_fin_two, Matrix.mul_fin_two]
      ext i j
      fin_cases i <;> fin_cases j <;> simp <;> nlinarith [h2]
  have hdet : (crossCov
      [((125 : ℝ), 50), (-25, 50), (50, 125), (50, -25), (50, 50), (50, 50), (50, 50), (50, 50)]
      [((125 : ℝ), 50), (-25, 50), (50, 125), (50, -25), (50, 50), (50, 50), (50, 50),
        (50, 50)]).det ≠ 0 := by
    rw [hM, Matrix.det_fin_two_of]
    norm_num
  have hR : procrustesR
      !![Real.sqrt 2 / 2, -(Real.sqrt 2 / 2); Real.sqrt 2 / 2, Real.sqrt 2 / 2]
      !![Real.sqrt 2 / 2, -(Real.sqrt 2 / 2); Real.sqrt 2 / 2, Real.sqrt 2 / 2] = 1 := by
    unfold procrustesR
    rw [transpose_lit, Matrix.mul_fin_two, Matrix.one_fin_two]
    ext i j
    fin_cases i <;> fin_cases j <;> simp <;> nlinarith [h2]
  have hproj : ProcrustesTransform.project Real.sqrt
      (fun _ => (!![Real.sqrt 2 / 2, -(Real.sqrt 2 / 2); Real.sqrt 2 / 2, Real.sqrt 2 / 2],
        !![Real.sqrt 2 / 2, -(Real.sqrt 2 / 2); Real.sqrt 2 / 2, Real.sqrt 2 / 2]))
      [((125 : ℝ), 50), (-25, 50), (50, 125), (50, -25), (50, 50), (50, 50), (50, 50), (50, 50)]
      [((1 : ℝ), 0), (-1, 0), (0, 1), (0, -1)] [⟨0, 0, 0, 0⟩] =
      some ⟨1, 0, 1, 0, 0, 0, 2⟩ := by
    simp only [ProcrustesTransform.project]
    rw [if_pos (by norm_num [rectCorners])]
    rw [hR]
    have hmean : meanPt ([((1 : ℝ), 0), (-1, 0), (0, 1), (0, -1)] ++
        rectCorners ⟨0, 0, 0, 0⟩) = (0, 0) := by
      norm_num [meanPt, rectCorners, topLeft, topRight, bottomLeft, bottomRight]
    have hsum : sumSq (centerPoints ([((1 : ℝ), 0), (-1, 0), (0, 1), (0, -1)] ++
        rectCorners ⟨0, 0, 0, 0⟩)) = 4 := by
      norm_num [sumSq, centerPoints, meanPt, rectCorners, topLeft, topRight, bottomLeft,
        bottomRight]
    rw [hmean, hsum, h4]
    simp [Matrix.one_apply]
  exact ⟨hcan, hsvd, hdet, hproj,
    project_R_identity_on_mean_shape
      (fun _ => (!![Real.sqrt 2 / 2, -(Real.sqrt 2 / 2); Real.sqrt 2 / 2, Real.sqrt 2 / 2],
        !![Real.sqrt 2 / 2, -(Real.sqrt 2 / 2); Real.sqrt 2 / 2, Real.sqrt 2 / 2]))
      [((125 : ℝ), 50), (-25, 50), (50, 125), (50, -25), (50, 50), (50, 50), (50, 50), (50, 50)]
      [((1 : ℝ), 0), (-1, 0), (0, 1), (0, -1)] [⟨0, 0, 0, 0⟩]
      !![(51250 : ℝ), 0; 0, 11250] ⟨1, 0, 1, 0, 0, 0, 2⟩ hcan hsvd hdet hproj⟩

end Landmarks

namespace Landmarks

/-- C7 counterexample: with the degenerate concrete sample below (two
landmarks on the diagonal, degenerate rectangle at the origin) whose
canonical points equal the stored mean shape, the cross-covariance
matrix is singular and a valid SVD of it yields
`R = U * Vᵀ = [[0,1],[1,0]]`, so `project` attaches a matrix different
from the identity, refuting the claim as stated. -/
theorem project_R_not_identity_degenerate :
    (canonicalShape Real.sqrt [((1 : ℝ), 1), (-1, -1)] [⟨0, 0, 0, 0⟩] =
      some [(125, 125), (-25, -25), (50, 50), (50, 50), (50, 50), (50, 50)]) ∧
    IsSVDOf !![Real.sqrt 2 / 2, -(Real.sqrt 2 / 2); Real.sqrt 2 / 2, Real.sqrt 2 / 2]
      !![(52500 : ℝ), 0; 0, 0]
      !![Real.sqrt 2 / 2, Real.sqrt 2 / 2; Real.sqrt 2 / 2, -(Real.sqrt 2 / 2)]
      (crossCov [((125 : ℝ), 125), (-25, -25), (50, 50), (50, 50), (50, 50), (50, 50)]
        [((125 : ℝ), 125), (-25, -25), (50, 50), (50, 50), (50, 50), (50, 50)]) ∧
    ProcrustesTransform.project Real.sqrt
      (fun _ => (!![Real.sqrt 2 / 2, -(Real.sqrt 2 / 2); Real.sqrt 2 / 2, Real.sqrt 2 / 2],
        !![Real.sqrt 2 / 2, Real.sqrt 2 / 2; Real.sqrt 2 / 2, -(Real.sqrt 2 / 2)]))
      [((125 : ℝ), 125), (-25, -25), (50, 50), (50, 50), (50, 50), (50, 50)]
      [((1 : ℝ), 1), (-1, -1)] [⟨0, 0, 0, 0⟩] =
      some ⟨0, 1, 0, 1, 0, 0, 2⟩ ∧
    outR (⟨0, 1, 0, 1, 0, 0, 2⟩ : AlignOut ℝ) ≠ 1 := by
  have h2 : Real.sqrt 2 * Real.sqrt 2 = 2 := Real.mul_self_sqrt (by norm_num)
  have h4 : Real.sqrt 4 = 2 := by
    rw [show (4 : ℝ) = 2 ^ 2 by norm_num]
    exact Real.sqrt_sq (by norm_num)
  have hcan : canonicalShape Real.sqrt [((1 : ℝ), 1), (-1, -1)] [⟨0, 0, 0, 0⟩] =
      some [(125, 125), (-25, -25), (50, 50), (50, 50), (50, 50), (50, 50)] := by
    norm_num [canonicalShape, augmentPoints, rectCorners, topLeft, topRight, bottomLeft,
      bottomRight, centerPoints, meanPt, sumSq, canonicalBy, h4]
  have hM : crossCov [((125 : ℝ), 125), (-25, -25), (50, 50), (50, 50), (50, 50), (50, 50)]
      [((125 : ℝ), 125), (-25, -25), (50, 50), (50, 50), (50, 50), (50, 50)] =
      !![26250, 26250; 26250, 26250] := by
    ext a b
    fin_cases a <;> fin_cases b <;> norm_num [crossCov, coord, List.zip_cons_cons]
  have hsvd : IsSVDOf !![Real.sqrt 2 / 2, -(Real.sqrt 2 / 2); Real.sqrt 2 / 2, Real.sqrt 2 / 2]
      !![(52500 : ℝ), 0; 0, 0]
      !![Real.sqrt 2 / 2, Real.sqrt 2 / 2; Real.sqrt 2 / 2, -(Real.sqrt 2 / 2)]
      (crossCov [((125 : ℝ), 125), (-25, -25), (50, 50), (50, 50), (50, 50), (50, 50)]
        [((125 : ℝ), 125), (-25, -25), (50, 50), (50, 50), (50, 50), (50, 50)]) := by
    refine ⟨?_, ?_, ⟨![52500, 0], ?_, ?_⟩, ?_⟩
    · unfold IsOrthogonal
      rw [transpose_lit, Matrix.mul_fin_two, Matrix.one_fin_two]
      ext i j
      fin_cases i <;> fin_cases j <;> simp <;> nlinarith [h2]
    · unfold IsOrthogonal
      rw [transpose_lit, Matrix.mul_fin_two, Matrix.one_fin_two]
      ext i j
      fin_cases i <;> fin_cases j <;> simp <;> nlinarith [h2]
    · ext i j
      fin_cases i <;> fin_cases j <;> simp [Matrix.diagonal]
    · intro i
      fin_cases i <;> norm_num
    · rw [hM, transpose_lit, Matrix.mul_fin_two, Matrix.mul_fin_two]
      ext i j
      fin_cases i <;> fin_cases j <;> simp <;> nlinarith [h2]
  have hR : procrustesR
      !![Real.sqrt 2 / 2, -(Real.sqrt 2 / 2); Real.sqrt 2 / 2, Real.sqrt 2 / 2]
      !![Real.sqrt 2 / 2, Real.sqrt 2 / 2; Real.sqrt 2 / 2, -(Real.sqrt 2 / 2)] =
      !![0, 1; 1, 0] := by
    unfold procrustesR
    rw [transpose_lit, Matrix.mul_fin_two]
    ext i j
    fin_cases i <;> fin_cases j <;> simp <;> nlinarith [h2]
  have hproj : ProcrustesTransform.project Real.sqrt
      (fun _ => (!![Real.sqrt 2 / 2, -(Real.sqrt 2 / 2); Real.sqrt 2 / 2, Real.sqrt 2 / 2],
        !![Real.sqrt 2 / 2, Real.sqrt 2 / 2; Real.sqrt 2 / 2, -(Real.sqrt 2 / 2)]))
      [((125 : ℝ), 125), (-25, -25), (50, 50), (50, 50), (50, 50), (50, 50)]
      [((1 : ℝ), 1), (-1, -1)] [⟨0, 0, 0, 0⟩] =
      some ⟨0, 1, 0, 1, 0, 0, 2⟩ := by
    simp only [ProcrustesTransform.project]
    rw [if_pos (by norm_num [rectCorners])]
    rw [hR]
    have hmean : meanPt ([((1 : ℝ), 1), (-1, -1)] ++ rectCorners ⟨0, 0, 0, 0⟩) = (0, 0) := by
      norm_num [meanPt, rectCorners, topLeft, topRight, bottomLeft, bottomRight]
    have hsum : sumSq (centerPoints ([((1 : ℝ), 1), (-1, -1)] ++
        rectCorners ⟨0, 0, 0, 0⟩)) = 4 := by
      norm_num [sumSq, centerPoints, meanPt, rectCorners, topLeft, topRight, bottomLeft,
        bottomRight]
    rw [hmean, hsum, h4]
    simp
  refine ⟨hcan, hsvd, hproj, ?_⟩
  intro heq
  have h00 : outR (⟨0, 1, 0, 1, 0, 0, 2⟩ : AlignOut ℝ) 0 0 = (1 : Matrix (Fin 2) (Fin 2) ℝ) 0 0 := by
    rw [heq]
  simp [outR, Matrix.one_apply] at h00
end Landmarks
